import Mathlib

/-!
Shallow embedding of the core of the `ray_tracer` repository
(`src/tuple.rs`, `src/matrix.rs`, `src/matrix_transformations.rs`,
`src/rays.rs`, `src/light.rs`, `src/color.rs`).

Rust `f64` values are modelled as real numbers; fallible Rust code
(`Result`, `.unwrap()`) is modelled with `Except`/`Option`.
-/

namespace RayTracer

/-- `EPSILON` from `tuple.rs` / `utils.rs`. -/
def EPSILON : ℝ := 0.00001

/-- `equal_f64` from `utils.rs` (also in `tuple.rs`): approximate equality of
two floats, `|a - b| < EPSILON`. -/
def equal_f64 (a b : ℝ) : Prop := |a - b| < EPSILON

/-- The `Tuple` struct from `tuple.rs`: 4-component homogeneous tuple. -/
structure Tuple where
  x : ℝ
  y : ℝ
  z : ℝ
  w : ℝ

/-- `new_point` from `tuple.rs`: `w = 1.0`. -/
def new_point (x y z : ℝ) : Tuple := ⟨x, y, z, 1⟩

/-- `new_vector` from `tuple.rs`: `w = 0.0`. -/
def new_vector (x y z : ℝ) : Tuple := ⟨x, y, z, 0⟩

/-- `Tuple::is_point` from `tuple.rs`. -/
def Tuple.is_point (t : Tuple) : Prop := t.w = 1

/-- `Tuple.is_vector` from `tuple.rs`. -/
def Tuple.is_vector (t : Tuple) : Prop := t.w = 0

/-- `impl Add for Tuple` from `tuple.rs`. -/
def Tuple.add (a b : Tuple) : Tuple := ⟨a.x + b.x, a.y + b.y, a.z + b.z, a.w + b.w⟩

instance : Add Tuple := ⟨Tuple.add⟩

/-- `impl Sub for Tuple` from `tuple.rs`. -/
def Tuple.sub (a b : Tuple) : Tuple := ⟨a.x - b.x, a.y - b.y, a.z - b.z, a.w - b.w⟩

instance : Sub Tuple := ⟨Tuple.sub⟩

/-- `impl Neg for Tuple` from `tuple.rs`. -/
def Tuple.negt (a : Tuple) : Tuple := ⟨-a.x, -a.y, -a.z, -a.w⟩

instance : Neg Tuple := ⟨Tuple.negt⟩

/-- `impl Mul<f64> for Tuple` from `tuple.rs`. -/
def Tuple.scale (a : Tuple) (s : ℝ) : Tuple := ⟨a.x * s, a.y * s, a.z * s, a.w * s⟩

/-- The error type `TupleNotVectorError` from `tuple.rs`. -/
structure TupleNotVectorError where
  details : String
  deriving DecidableEq

open Classical

/-- `magnitude` from `tuple.rs`: guarded to vectors, square root of the sum of
the squares of all four components. -/
noncomputable def magnitude (v : Tuple) : Except TupleNotVectorError ℝ :=
  if v.is_vector then
    Except.ok (Real.sqrt (v.x ^ 2 + v.y ^ 2 + v.z ^ 2 + v.w ^ 2))
  else
    Except.error ⟨"tuple passed to magnitude must be a vector"⟩

/-- `dot` from `tuple.rs` (lines 217-224): guarded to vectors; note that the
final term of the returned sum is `vec_a.w + vec_b.w`, an addition. -/
noncomputable def dot (vec_a vec_b : Tuple) : Except TupleNotVectorError ℝ :=
  if vec_a.is_vector ∧ vec_b.is_vector then
    Except.ok (vec_a.x * vec_b.x + vec_a.y * vec_b.y + vec_a.z * vec_b.z + vec_a.w + vec_b.w)
  else
    Except.error ⟨"dot: both vec_a and vec_b must be vectors"⟩

/-- Modelled from the spec: the `Tuple::dot` method returning a plain `f64`,
used by `rays.rs` and `light.rs`, is not among the supplied source files; §4.1
of the spec requires the four-component pairwise product
`a.x*b.x + a.y*b.y + a.z*b.z + a.w*b.w`. -/
def Tuple.dotv (a b : Tuple) : ℝ := a.x * b.x + a.y * b.y + a.z * b.z + a.w * b.w

/-- Modelled from the spec: the `Tuple::normalize` method used by `rays.rs` and
`light.rs` is not among the supplied source files; §4.1 of the spec (and the
free `normalize` of `tuple.rs`) divides every component by the magnitude
`sqrt(x² + y² + z² + w²)`. -/
noncomputable def Tuple.normalizev (v : Tuple) : Tuple :=
  let m := Real.sqrt (v.x ^ 2 + v.y ^ 2 + v.z ^ 2 + v.w ^ 2)
  ⟨v.x / m, v.y / m, v.z / m, v.w / m⟩

/-! ## Matrix engine (`matrix.rs`) -/

/-- Row-major 4x4 grid of floats (`M4x4.matrix` field); `m r c` is
`matrix[r][c]`. -/
abbrev M4x4 := Fin 4 → Fin 4 → ℝ

/-- Row-major 3x3 grid (`M3x3`). -/
abbrev M3x3 := Fin 3 → Fin 3 → ℝ

/-- Row-major 2x2 grid (`M2x2`). -/
abbrev M2x2 := Fin 2 → Fin 2 → ℝ

/-- `IDENTITY_MATRIX_4X4` from `matrix.rs`: ones on the diagonal, zeroes
elsewhere. -/
def IDENTITY_MATRIX_4X4 : M4x4 := fun y x => if y = x then 1 else 0

/-- `cal_index_matrix_multi` from `matrix.rs`: the row `y` of `m1` dotted with
the column `x` of `m2`. -/
def cal_index_matrix_multi (m1 m2 : M4x4) (x y : Fin 4) : ℝ :=
  ∑ i : Fin 4, m1 y i * m2 i x

/-- `impl Mul<M4x4> for M4x4` from `matrix.rs`:
`new_matrix[y][x] = cal_index_matrix_multi(self, other, x, y)`. -/
def mul_4x4 (a b : M4x4) : M4x4 := fun y x => cal_index_matrix_multi a b x y

/-- `cal_index_tuple_multi` from `matrix.rs`:
`t.x*row[0] + t.y*row[1] + t.z*row[2] + t.w*row[3]` for row `r`. -/
def cal_index_tuple_multi (m : M4x4) (t : Tuple) (r : Fin 4) : ℝ :=
  t.x * m r 0 + t.y * m r 1 + t.z * m r 2 + t.w * m r 3

/-- `impl Mul<Tuple> for M4x4` from `matrix.rs`. -/
def mul_tuple (m : M4x4) (t : Tuple) : Tuple :=
  ⟨cal_index_tuple_multi m t 0, cal_index_tuple_multi m t 1,
   cal_index_tuple_multi m t 2, cal_index_tuple_multi m t 3⟩

/-- `transpose` from `matrix.rs`: `tx_m[x][y] = m.matrix[y][x]`. -/
def transpose (m : M4x4) : M4x4 := fun y x => m x y

/-- `submatrix_4x4` from `matrix.rs`: drop row `row` and column `col`; the
sequential copy that skips the dropped row/column is index arithmetic
`Fin.succAbove`. -/
def submatrix_4x4 (m : M4x4) (row col : Fin 4) : M3x3 :=
  fun y x => m (row.succAbove y) (col.succAbove x)

/-- `submatrix_3x3` from `matrix.rs`. -/
def submatrix_3x3 (m : M3x3) (row col : Fin 3) : M2x2 :=
  fun y x => m (row.succAbove y) (col.succAbove x)

/-- `determinant_2x2` from `matrix.rs`: `ad - bc`. -/
def determinant_2x2 (m : M2x2) : ℝ := m 0 0 * m 1 1 - m 0 1 * m 1 0

/-- `minor_3x3` from `matrix.rs`. -/
def minor_3x3 (m : M3x3) (row col : Fin 3) : ℝ :=
  determinant_2x2 (submatrix_3x3 m row col)

/-- `cofactor_3x3` from `matrix.rs`: the minor, negated when `row + col` is
odd. -/
def cofactor_3x3 (m : M3x3) (row col : Fin 3) : ℝ :=
  if ((row : ℕ) + (col : ℕ)) % 2 = 0 then minor_3x3 m row col
  else -1 * minor_3x3 m row col

/-- `determinant_3x3` from `matrix.rs`: cofactor expansion along row 0. -/
def determinant_3x3 (m : M3x3) : ℝ :=
  ∑ col : Fin 3, m 0 col * cofactor_3x3 m 0 col

/-- `minor_4x4` from `matrix.rs`. -/
def minor_4x4 (m : M4x4) (row col : Fin 4) : ℝ :=
  determinant_3x3 (submatrix_4x4 m row col)

/-- `cofactor_4x4` from `matrix.rs`. -/
def cofactor_4x4 (m : M4x4) (row col : Fin 4) : ℝ :=
  if ((row : ℕ) + (col : ℕ)) % 2 = 0 then minor_4x4 m row col
  else -1 * minor_4x4 m row col

/-- `determinant_4x4` from `matrix.rs`: cofactor expansion along row 0. -/
def determinant_4x4 (m : M4x4) : ℝ :=
  ∑ col : Fin 4, m 0 col * cofactor_4x4 m 0 col

/-- `invertible_4x4` from `matrix.rs`: `determinant_4x4(matrix) != 0.0`. -/
def invertible_4x4 (m : M4x4) : Prop := determinant_4x4 m ≠ 0

/-- The `MatrixError` enum from `matrix.rs`. -/
inductive MatrixError where
  | MatrixNotInvertible
  deriving DecidableEq

/-- The matrix built by the loop of `invert_4x4` in `matrix.rs`:
`cofactors[x][y] = cofactor_4x4(matrix, y, x) / det` — the write-transposed
cofactor matrix over the determinant. -/
noncomputable def adjugate_over_det (m : M4x4) : M4x4 :=
  fun x y => cofactor_4x4 m y x / determinant_4x4 m

/-- `invert_4x4` from `matrix.rs` (lines 260-274): fails with
`MatrixNotInvertible` when the matrix is not invertible; otherwise returns the
write-transposed cofactor matrix divided by the determinant. -/
noncomputable def invert_4x4 (m : M4x4) : Except MatrixError M4x4 :=
  if invertible_4x4 m then
    Except.ok (adjugate_over_det m)
  else
    Except.error MatrixError.MatrixNotInvertible

/-- `impl PartialEq for M4x4` from `matrix.rs`: the loops range over
`y in 0..3` and `x in 0..3`, so only the upper-left 3x3 block is compared
(approximately). -/
def m4x4_eq (a b : M4x4) : Prop :=
  ∀ y x : Fin 4, (y : ℕ) < 3 → (x : ℕ) < 3 → equal_f64 (a y x) (b y x)

/-- `impl PartialEq for M3x3` from `matrix.rs`: loops range over `0..2`. -/
def m3x3_eq (a b : M3x3) : Prop :=
  ∀ y x : Fin 3, (y : ℕ) < 2 → (x : ℕ) < 2 → equal_f64 (a y x) (b y x)

/-- `impl PartialEq for M2x2` from `matrix.rs`: loops range over `0..1`. -/
def m2x2_eq (a b : M2x2) : Prop :=
  ∀ y x : Fin 2, (y : ℕ) < 1 → (x : ℕ) < 1 → equal_f64 (a y x) (b y x)

/-! ## Transform constructors (`matrix_transformations.rs`) -/

/-- `translation` from `matrix_transformations.rs`: the identity matrix with
`matrix[0][3] = x`, `matrix[1][3] = y`, `matrix[2][3] = z`. -/
def translation (tx ty tz : ℝ) : M4x4 := fun r c =>
  if r = 0 ∧ c = 3 then tx
  else if r = 1 ∧ c = 3 then ty
  else if r = 2 ∧ c = 3 then tz
  else IDENTITY_MATRIX_4X4 r c

/-- `scaling` from `matrix_transformations.rs`: the identity matrix with
`matrix[0][0] = x`, `matrix[1][1] = y`, `matrix[2][2] = z`. -/
def scaling (sx sy sz : ℝ) : M4x4 := fun r c =>
  if r = 0 ∧ c = 0 then sx
  else if r = 1 ∧ c = 1 then sy
  else if r = 2 ∧ c = 2 then sz
  else IDENTITY_MATRIX_4X4 r c

/-! ## Colors and materials (`color.rs`, `light.rs`) -/

/-- The `Color` struct from `color.rs`. It wraps a `Tuple` built by
`Point::new_point(red, green, blue)`; since the `w` component is always `1`
and never observed, only the three color components are modelled. -/
structure Color where
  red : ℝ
  green : ℝ
  blue : ℝ

/-- `Color::new` from `color.rs`. -/
def Color.new (red green blue : ℝ) : Color := ⟨red, green, blue⟩

/-- `impl Add for Color` from `color.rs`. -/
def Color.add (a b : Color) : Color :=
  Color.new (a.red + b.red) (a.green + b.green) (a.blue + b.blue)

instance : Add Color := ⟨Color.add⟩

/-- `impl Mul<f64> for Color` from `color.rs`. -/
def Color.scale (c : Color) (s : ℝ) : Color :=
  Color.new (c.red * s) (c.green * s) (c.blue * s)

/-- `impl Mul for Color` from `color.rs`: the Hadamard (component-wise)
product. -/
def Color.hadamard (a b : Color) : Color :=
  Color.new (a.red * b.red) (a.green * b.green) (a.blue * b.blue)

instance : Mul Color := ⟨Color.hadamard⟩

/-- The `Material` struct from `light.rs`. -/
structure Material where
  color : Color
  ambient : ℝ
  diffuse : ℝ
  specular : ℝ
  shininess : ℝ

/-- `Material::new` from `light.rs`: the default material. -/
def Material.new : Material := ⟨Color.new 1 1 1, 0.1, 0.9, 0.9, 200⟩

/-- The `PointLight` struct from `light.rs`. -/
structure PointLight where
  position : Tuple
  intensity : Color

/-- `PointLight::new` from `light.rs`. -/
def PointLight.new (position : Tuple) (intensity : Color) : PointLight :=
  ⟨position, intensity⟩

/-! ## Rays, spheres and intersections (`rays.rs`) -/

/-- `SPHERE_ORIGIN` from `rays.rs`: the point `(0, 0, 0)`. -/
def SPHERE_ORIGIN : Tuple := ⟨0, 0, 0, 1⟩

/-- The `Ray` struct from `rays.rs`. -/
structure Ray where
  origin : Tuple
  direction : Tuple

/-- `Ray::new` from `rays.rs`. -/
def Ray.new (origin direction : Tuple) : Ray := ⟨origin, direction⟩

/-- `Ray::position` from `rays.rs`. -/
def Ray.position (r : Ray) (time : ℝ) : Tuple := r.origin + r.direction.scale time

/-- `Ray::discriminant` from `rays.rs`: `b² - 4ac` of the unit-sphere
quadratic. -/
def Ray.discriminant (r : Ray) : ℝ :=
  let sphere_to_ray := r.origin - SPHERE_ORIGIN
  let a := r.direction.dotv r.direction
  let b := 2 * r.direction.dotv sphere_to_ray
  let c := sphere_to_ray.dotv sphere_to_ray - 1
  b ^ 2 - 4 * a * c

/-- A concrete transform used when analysing `normal_at`: the (invertible)
permutation matrix that swaps the `x` and `w` coordinates. -/
def swap_xw : M4x4 := fun r c =>
  if (r = 0 ∧ c = 3) ∨ (r = 3 ∧ c = 0) ∨ (r = 1 ∧ c = 1) ∨ (r = 2 ∧ c = 2) then 1
  else 0

/-- The `Sphere` struct from `rays.rs`; the opaque `Uuid` is modelled as a
natural number. -/
structure Sphere where
  id : ℕ
  transform : M4x4
  material : Material

/-- `impl PartialEq for Sphere` from `rays.rs`: compares ids only. -/
def sphere_eq (a b : Sphere) : Prop := a.id = b.id

/-- The `Intersection<Sphere>` struct from `rays.rs`. -/
structure Intersection where
  t : ℝ
  object : Sphere

/-- `Intersection::new` from `rays.rs`. -/
def Intersection.new (t : ℝ) (object : Sphere) : Intersection := ⟨t, object⟩

/-- `impl PartialEq for Intersection<Sphere>` from `rays.rs` (lines 159-163):
`self.object == other.object`, the `t` field is not compared. -/
def intersection_eq (a b : Intersection) : Prop := sphere_eq a.object b.object

/-- `transform` from `rays.rs`: applies a matrix to a ray's origin and
direction. -/
def transform (ray : Ray) (translation_matrix : M4x4) : Ray :=
  Ray.new (mul_tuple translation_matrix ray.origin)
    (mul_tuple translation_matrix ray.direction)

/-- `intersect` from `rays.rs` (lines 234-272). The `.unwrap()` on
`invert_4x4` panics when the sphere's transform is not invertible; this is
modelled by returning `none`. -/
noncomputable def intersect (r : Ray) (s : Sphere) : Option (List Intersection) :=
  match invert_4x4 s.transform with
  | Except.error _ => none
  | Except.ok inverted_tx =>
    let r' := transform r inverted_tx
    let d := r'.discriminant
    if d < 0 then some []
    else
      let sphere_to_ray := r'.origin - SPHERE_ORIGIN
      let a := r'.direction.dotv r'.direction
      let b := 2 * r'.direction.dotv sphere_to_ray
      if d = 0 then
        let t := -b / (2 * a)
        some [Intersection.new t s, Intersection.new t s]
      else
        let t1 := (-b - Real.sqrt d) / (2 * a)
        let t2 := (-b + Real.sqrt d) / (2 * a)
        some [Intersection.new t1 s, Intersection.new t2 s]

/-- One step of Rust's `Iterator::min_by` (which keeps the earlier element on
ties), as used by `hit`. -/
noncomputable def hit_min (acc : Option Intersection) (i : Intersection) :
    Option Intersection :=
  match acc with
  | none => some i
  | some j => if i.t < j.t then some i else some j

/-- `hit` from `rays.rs` (lines 274-280): filter to `t >= 0.0`, then take the
minimum by `t`. -/
noncomputable def hit (xs : List Intersection) : Option Intersection :=
  (xs.filter fun i => decide (0 ≤ i.t)).foldl hit_min none

/-- `reflect` from `rays.rs`: `incoming - normal * 2.0 * dot(incoming, normal)`. -/
def reflect (incoming normal : Tuple) : Tuple :=
  incoming - (normal.scale 2).scale (incoming.dotv normal)

/-- `Sphere::normal_at` from `rays.rs` (lines 124-136). The `.unwrap()`s on
`invert_4x4` are modelled by returning `none` when the transform is not
invertible. `Vector::new` zeroes the `w` component before normalizing, and the
final write sets `w` to `0.0` again. -/
noncomputable def normal_at (s : Sphere) (world_point : Tuple) : Option Tuple :=
  match invert_4x4 s.transform with
  | Except.error _ => none
  | Except.ok inv =>
    let object_point := mul_tuple inv world_point
    let object_normal := object_point - new_point 0 0 0
    let world_normal := mul_tuple (transpose inv) object_normal
    let n := (new_vector world_normal.x world_normal.y world_normal.z).normalizev
    some ⟨n.x, n.y, n.z, 0⟩

/-- The object-space normal computed inside `normal_at`
(`object_point - Point::new_point(0.0, 0.0, 0.0)`), exposed for stating
properties about `normal_at`. -/
noncomputable def object_normal_of (s : Sphere) (world_point : Tuple) : Option Tuple :=
  match invert_4x4 s.transform with
  | Except.error _ => none
  | Except.ok inv => some (mul_tuple inv world_point - new_point 0 0 0)

/-- The raw (pre-normalization) world-space normal computed inside
`normal_at` (`transpose(invert(transform)) * object_normal`), exposed for
stating properties about `normal_at`. -/
noncomputable def world_normal_raw (s : Sphere) (world_point : Tuple) : Option Tuple :=
  match invert_4x4 s.transform with
  | Except.error _ => none
  | Except.ok inv =>
    some (mul_tuple (transpose inv) (mul_tuple inv world_point - new_point 0 0 0))

/-! ## Phong lighting (`light.rs`) -/

/-- `lighting` from `light.rs` (lines 41-87). -/
noncomputable def lighting (material : Material) (light : PointLight)
    (point eyev normalv : Tuple) : Color :=
  let effective_color := material.color * light.intensity
  let lightv := (light.position - point).normalizev
  let ambient := effective_color.scale material.ambient
  let light_dot_normal := lightv.dotv normalv
  if light_dot_normal < 0 then
    ambient + Color.new 0 0 0 + Color.new 0 0 0
  else
    let diffuse := (effective_color.scale material.diffuse).scale light_dot_normal
    let reflectv := reflect (-lightv) normalv
    let reflect_dot_eye := reflectv.dotv eyev
    let specular :=
      if reflect_dot_eye ≤ 0 then Color.new 0 0 0
      else (light.intensity.scale material.specular).scale
        (reflect_dot_eye ^ material.shininess)
    ambient + diffuse + specular

end RayTracer

namespace RayTracer

/-! ### Evaluation lemmas for the row/column-skipping index arithmetic -/

theorem sa4_00 : (0 : Fin 4).succAbove 0 = 1 := by decide

theorem sa4_01 : (0 : Fin 4).succAbove 1 = 2 := by decide

theorem sa4_02 : (0 : Fin 4).succAbove 2 = 3 := by decide

theorem sa4_10 : (1 : Fin 4).succAbove 0 = 0 := by decide

theorem sa4_11 : (1 : Fin 4).succAbove 1 = 2 := by decide

theorem sa4_12 : (1 : Fin 4).succAbove 2 = 3 := by decide

theorem sa4_20 : (2 : Fin 4).succAbove 0 = 0 := by decide

theorem sa4_21 : (2 : Fin 4).succAbove 1 = 1 := by decide

theorem sa4_22 : (2 : Fin 4).succAbove 2 = 3 := by decide

theorem sa4_30 : (3 : Fin 4).succAbove 0 = 0 := by decide

theorem sa4_31 : (3 : Fin 4).succAbove 1 = 1 := by decide

theorem sa4_32 : (3 : Fin 4).succAbove 2 = 2 := by decide

theorem sa3_00 : (0 : Fin 3).succAbove 0 = 1 := by decide

theorem sa3_01 : (0 : Fin 3).succAbove 1 = 2 := by decide

theorem sa3_10 : (1 : Fin 3).succAbove 0 = 0 := by decide

theorem sa3_11 : (1 : Fin 3).succAbove 1 = 2 := by decide

theorem sa3_20 : (2 : Fin 3).succAbove 0 = 0 := by decide

theorem sa3_21 : (2 : Fin 3).succAbove 1 = 1 := by decide

theorem v4_0 : ((0 : Fin 4) : ℕ) = 0 := by decide

theorem v4_1 : ((1 : Fin 4) : ℕ) = 1 := by decide

theorem v4_2 : ((2 : Fin 4) : ℕ) = 2 := by decide

theorem v4_3 : ((3 : Fin 4) : ℕ) = 3 := by decide

theorem v3_0 : ((0 : Fin 3) : ℕ) = 0 := by decide

theorem v3_1 : ((1 : Fin 3) : ℕ) = 1 := by decide

theorem v3_2 : ((2 : Fin 3) : ℕ) = 2 := by decide

/-! ### Determinant and inverse: helper lemmas -/

theorem det_identity : determinant_4x4 IDENTITY_MATRIX_4X4 = 1 := by
  simp only [determinant_4x4, cofactor_4x4, minor_4x4, submatrix_4x4, determinant_3x3,
    cofactor_3x3, minor_3x3, submatrix_3x3, determinant_2x2, Fin.sum_univ_four,
    Fin.sum_univ_three, IDENTITY_MATRIX_4X4, sa4_00, sa4_01, sa4_02, sa4_10, sa4_11,
    sa4_12, sa4_20, sa4_21, sa4_22, sa4_30, sa4_31, sa4_32, sa3_00, sa3_01, sa3_10,
    sa3_11, sa3_20, sa3_21, v4_0, v4_1, v4_2, v4_3, v3_0, v3_1, v3_2]
  norm_num [Fin.ext_iff, v4_0, v4_1, v4_2, v4_3, v3_0, v3_1, v3_2]

theorem equal_f64_refl (a : ℝ) : equal_f64 a a := by
  unfold equal_f64 EPSILON
  norm_num

theorem m4x4_eq_refl (m : M4x4) : m4x4_eq m m :=
  fun _ _ _ _ => equal_f64_refl _

theorem invert_ok (m : M4x4) (h : determinant_4x4 m ≠ 0) :
    invert_4x4 m = Except.ok (adjugate_over_det m) := by
  unfold invert_4x4 invertible_4x4
  rw [if_pos h]

theorem invert_err (m : M4x4) (h : determinant_4x4 m = 0) :
    invert_4x4 m = Except.error MatrixError.MatrixNotInvertible := by
  unfold invert_4x4 invertible_4x4
  rw [if_neg (by simpa using h)]

theorem fmk4_0 : (⟨0, by norm_num⟩ : Fin 4) = 0 := rfl

theorem fmk4_1 : (⟨1, by norm_num⟩ : Fin 4) = 1 := rfl

theorem fmk4_2 : (⟨2, by norm_num⟩ : Fin 4) = 2 := rfl

theorem fmk4_3 : (⟨3, by norm_num⟩ : Fin 4) = 3 := rfl

set_option maxHeartbeats 2000000 in
/-- Expanding the cofactors along any row: the proper row gives the
determinant, an alien row gives zero. -/
theorem row_cofactor_expansion (m : M4x4) (i j : Fin 4) :
    ∑ k : Fin 4, m i k * cofactor_4x4 m j k =
      if i = j then determinant_4x4 m else 0 := by
  fin_cases i <;> fin_cases j <;>
    · simp only [determinant_4x4, cofactor_4x4, minor_4x4, submatrix_4x4, determinant_3x3,
        cofactor_3x3, minor_3x3, submatrix_3x3, determinant_2x2, Fin.sum_univ_four,
        Fin.sum_univ_three, fmk4_0, fmk4_1, fmk4_2, fmk4_3, sa4_00, sa4_01, sa4_02,
        sa4_10, sa4_11, sa4_12, sa4_20, sa4_21, sa4_22, sa4_30, sa4_31, sa4_32, sa3_00,
        sa3_01, sa3_10, sa3_11, sa3_20, sa3_21, v4_0, v4_1, v4_2, v4_3, v3_0, v3_1, v3_2]
      norm_num [Fin.ext_iff, v4_0, v4_1, v4_2, v4_3]
      try ring

theorem mul_adjugate_over_det (m : M4x4) (h : determinant_4x4 m ≠ 0) :
    mul_4x4 m (adjugate_over_det m) = IDENTITY_MATRIX_4X4 := by
  funext y x
  simp only [mul_4x4, cal_index_matrix_multi, adjugate_over_det, IDENTITY_MATRIX_4X4]
  rw [show ∀ f g : Fin 4 → ℝ, (∑ i, f i * (g i / determinant_4x4 m)) =
      (∑ i, f i * g i) / determinant_4x4 m from fun f g => by
    rw [Finset.sum_div]
    exact Finset.sum_congr rfl fun i _ => (mul_div_assoc _ _ _).symm]
  rw [row_cofactor_expansion m y x]
  by_cases hyx : y = x
  · rw [if_pos hyx, if_pos hyx, div_self h]
  · rw [if_neg hyx, if_neg hyx, zero_div]

set_option maxHeartbeats 2000000 in
/-- The determinant of `matrix.rs` is multiplicative. -/
theorem determinant_mul_4x4 (a b : M4x4) :
    determinant_4x4 (mul_4x4 a b) = determinant_4x4 a * determinant_4x4 b := by
  simp only [determinant_4x4, cofactor_4x4, minor_4x4, submatrix_4x4, determinant_3x3,
    cofactor_3x3, minor_3x3, submatrix_3x3, determinant_2x2, Fin.sum_univ_four,
    Fin.sum_univ_three, mul_4x4, cal_index_matrix_multi, sa4_00, sa4_01, sa4_02,
    sa4_10, sa4_11, sa4_12, sa4_20, sa4_21, sa4_22, sa4_30, sa4_31, sa4_32, sa3_00,
    sa3_01, sa3_10, sa3_11, sa3_20, sa3_21, v4_0, v4_1, v4_2, v4_3, v3_0, v3_1, v3_2]
  norm_num [Fin.ext_iff, v4_0, v4_1, v4_2, v4_3]
  ring

theorem mul_4x4_assoc (a b c : M4x4) :
    mul_4x4 (mul_4x4 a b) c = mul_4x4 a (mul_4x4 b c) := by
  funext y x
  simp only [mul_4x4, cal_index_matrix_multi, Fin.sum_univ_four]
  ring

theorem id_mul_4x4 (m : M4x4) : mul_4x4 IDENTITY_MATRIX_4X4 m = m := by
  funext y x
  fin_cases y <;>
    · simp only [mul_4x4, cal_index_matrix_multi, IDENTITY_MATRIX_4X4, Fin.sum_univ_four,
        fmk4_0, fmk4_1, fmk4_2, fmk4_3]
      norm_num [Fin.ext_iff, v4_0, v4_1, v4_2, v4_3]

theorem mul_4x4_id (m : M4x4) : mul_4x4 m IDENTITY_MATRIX_4X4 = m := by
  funext y x
  fin_cases x <;>
    · simp only [mul_4x4, cal_index_matrix_multi, IDENTITY_MATRIX_4X4, Fin.sum_univ_four,
        fmk4_0, fmk4_1, fmk4_2, fmk4_3]
      norm_num [Fin.ext_iff, v4_0, v4_1, v4_2, v4_3]

theorem adjugate_identity : adjugate_over_det IDENTITY_MATRIX_4X4 = IDENTITY_MATRIX_4X4 := by
  funext x y
  fin_cases x <;> fin_cases y <;>
    · simp only [adjugate_over_det, det_identity, determinant_4x4, cofactor_4x4, minor_4x4,
        submatrix_4x4, determinant_3x3, cofactor_3x3, minor_3x3, submatrix_3x3,
        determinant_2x2, Fin.sum_univ_four, Fin.sum_univ_three, IDENTITY_MATRIX_4X4,
        fmk4_0, fmk4_1, fmk4_2, fmk4_3, sa4_00, sa4_01, sa4_02,
        sa4_10, sa4_11, sa4_12, sa4_20, sa4_21, sa4_22, sa4_30, sa4_31, sa4_32, sa3_00,
        sa3_01, sa3_10, sa3_11, sa3_20, sa3_21, v4_0, v4_1, v4_2, v4_3, v3_0, v3_1, v3_2]
      norm_num [Fin.ext_iff, v4_0, v4_1, v4_2, v4_3]

theorem invert_identity :
    invert_4x4 IDENTITY_MATRIX_4X4 = Except.ok IDENTITY_MATRIX_4X4 := by
  rw [invert_ok IDENTITY_MATRIX_4X4 (by rw [det_identity]; norm_num), adjugate_identity]

theorem mul_tuple_identity (t : Tuple) : mul_tuple IDENTITY_MATRIX_4X4 t = t := by
  obtain ⟨x, y, z, w⟩ := t
  simp only [mul_tuple, cal_index_tuple_multi, IDENTITY_MATRIX_4X4]
  norm_num [Fin.ext_iff, v4_0, v4_1, v4_2, v4_3]

theorem transpose_identity : transpose IDENTITY_MATRIX_4X4 = IDENTITY_MATRIX_4X4 := by
  funext y x
  simp only [transpose, IDENTITY_MATRIX_4X4]
  by_cases h : y = x
  · rw [if_pos h.symm, if_pos h]
  · rw [if_neg (fun hc => h hc.symm), if_neg h]

/-! ## Claims -/

/-- C2: whenever `dot` returns `Ok r` (its guard requires both arguments to be
vectors, `w = 0.0`), the value `r` equals the mathematical four-component dot
product `a.x*b.x + a.y*b.y + a.z*b.z + a.w*b.w`; on this domain the `w` terms
contribute the pairwise product (which is zero), not a nonzero sum. -/
theorem C2_dot_ok_equals_pairwise_product :
    ∀ (a b : Tuple) (r : ℝ), dot a b = Except.ok r →
      r = a.x * b.x + a.y * b.y + a.z * b.z + a.w * b.w := by
  intro a b r h
  unfold dot at h
  by_cases hv : a.is_vector ∧ b.is_vector
  · rw [if_pos hv] at h
    obtain ⟨ha, hb⟩ := hv
    unfold Tuple.is_vector at ha hb
    rw [← Except.ok.inj h, ha, hb]
    ring
  · rw [if_neg hv] at h
    exact Except.noConfusion h

/-- Witness for C2 at the concrete vectors `(1,2,3)` and `(2,3,4)`. -/
theorem C2_dot_ok_equals_pairwise_product_witness :
    dot ⟨1, 2, 3, 0⟩ ⟨2, 3, 4, 0⟩ = Except.ok 20 ∧
      (20 : ℝ) = 1 * 2 + 2 * 3 + 3 * 4 + 0 * 0 := by
  have h : dot ⟨1, 2, 3, 0⟩ ⟨2, 3, 4, 0⟩ = Except.ok 20 := by
    unfold dot
    rw [if_pos ⟨rfl, rfl⟩]
    norm_num [Except.ok.injEq]
  refine ⟨h, ?_⟩
  have h2 := C2_dot_ok_equals_pairwise_product ⟨1, 2, 3, 0⟩ ⟨2, 3, 4, 0⟩ 20 h
  simpa using h2

/-- C4: `invert_4x4` returns the recoverable `MatrixNotInvertible` error
exactly when the determinant is zero, and returns `Ok` whenever the
determinant is nonzero (it is a total function — it never panics). -/
theorem C4_invert_error_iff_det_zero :
    ∀ m : M4x4,
      (invert_4x4 m = Except.error MatrixError.MatrixNotInvertible ↔
        determinant_4x4 m = 0) ∧
      (determinant_4x4 m ≠ 0 → ∃ n, invert_4x4 m = Except.ok n) := by
  intro m
  by_cases h : determinant_4x4 m = 0
  · rw [invert_err m h]
    exact ⟨⟨fun _ => h, fun _ => rfl⟩, fun hne => absurd h hne⟩
  · rw [invert_ok m h]
    exact ⟨⟨fun hc => Except.noConfusion hc, fun hc => absurd hc h⟩, fun _ => ⟨_, rfl⟩⟩

/-- Witness for C4: the identity matrix has nonzero determinant and inverts
to `Ok`; the all-zero matrix has zero determinant and fails recoverably. -/
theorem C4_invert_error_iff_det_zero_witness :
    (determinant_4x4 IDENTITY_MATRIX_4X4 ≠ 0 ∧
      ∃ n, invert_4x4 IDENTITY_MATRIX_4X4 = Except.ok n) ∧
    invert_4x4 (fun _ _ => 0) = Except.error MatrixError.MatrixNotInvertible := by
  have hid : determinant_4x4 IDENTITY_MATRIX_4X4 ≠ 0 := by
    rw [det_identity]; norm_num
  have hz : determinant_4x4 (fun _ _ => 0) = 0 := by
    simp only [determinant_4x4, cofactor_4x4, minor_4x4, submatrix_4x4, determinant_3x3,
      cofactor_3x3, minor_3x3, submatrix_3x3, determinant_2x2, Fin.sum_univ_four,
      Fin.sum_univ_three]
    norm_num
  exact ⟨⟨hid, (C4_invert_error_iff_det_zero IDENTITY_MATRIX_4X4).2 hid⟩,
    (C4_invert_error_iff_det_zero (fun _ _ => 0)).1.mpr hz⟩

/-- C5: `invert_4x4` on the identity matrix yields the identity; for every
matrix `m` with nonzero determinant, inverting twice recovers `m` and
`m * invert(m)` is the identity, up to the epsilon matrix comparison. -/
theorem C5_invert_involution_and_right_inverse :
    invert_4x4 IDENTITY_MATRIX_4X4 = Except.ok IDENTITY_MATRIX_4X4 ∧
    ∀ m : M4x4, determinant_4x4 m ≠ 0 →
      ∃ n, invert_4x4 m = Except.ok n ∧
        (∃ p, invert_4x4 n = Except.ok p ∧ m4x4_eq p m) ∧
        m4x4_eq (mul_4x4 m n) IDENTITY_MATRIX_4X4 := by
  refine ⟨invert_identity, fun m h => ?_⟩
  have hmn : mul_4x4 m (adjugate_over_det m) = IDENTITY_MATRIX_4X4 :=
    mul_adjugate_over_det m h
  have hdet1 : determinant_4x4 m * determinant_4x4 (adjugate_over_det m) = 1 := by
    rw [← determinant_mul_4x4, hmn, det_identity]
  have hdn : determinant_4x4 (adjugate_over_det m) ≠ 0 := by
    intro h0
    rw [h0, mul_zero] at hdet1
    norm_num at hdet1
  refine ⟨adjugate_over_det m, invert_ok m h,
    ⟨adjugate_over_det (adjugate_over_det m), invert_ok _ hdn, ?_⟩, ?_⟩
  · have hnp : mul_4x4 (adjugate_over_det m) (adjugate_over_det (adjugate_over_det m)) =
        IDENTITY_MATRIX_4X4 := mul_adjugate_over_det _ hdn
    have hp : adjugate_over_det (adjugate_over_det m) = m := by
      calc adjugate_over_det (adjugate_over_det m)
          = mul_4x4 IDENTITY_MATRIX_4X4 (adjugate_over_det (adjugate_over_det m)) :=
            (id_mul_4x4 _).symm
        _ = mul_4x4 (mul_4x4 m (adjugate_over_det m))
              (adjugate_over_det (adjugate_over_det m)) := by rw [hmn]
        _ = mul_4x4 m (mul_4x4 (adjugate_over_det m)
              (adjugate_over_det (adjugate_over_det m))) := mul_4x4_assoc _ _ _
        _ = mul_4x4 m IDENTITY_MATRIX_4X4 := by rw [hnp]
        _ = m := mul_4x4_id m
    rw [hp]
    exact m4x4_eq_refl m
  · rw [hmn]
    exact m4x4_eq_refl _

/-- Witness for C5 at the identity matrix. -/
theorem C5_invert_involution_and_right_inverse_witness :
    determinant_4x4 IDENTITY_MATRIX_4X4 ≠ 0 ∧
      ∃ n, invert_4x4 IDENTITY_MATRIX_4X4 = Except.ok n ∧
        (∃ p, invert_4x4 n = Except.ok p ∧ m4x4_eq p IDENTITY_MATRIX_4X4) ∧
        m4x4_eq (mul_4x4 IDENTITY_MATRIX_4X4 n) IDENTITY_MATRIX_4X4 := by
  have h : determinant_4x4 IDENTITY_MATRIX_4X4 ≠ 0 := by
    rw [det_identity]; norm_num
  exact ⟨h, C5_invert_involution_and_right_inverse.2 IDENTITY_MATRIX_4X4 h⟩

/-- C6: the `PartialEq` implementations compare only the upper-left blocks:
two 4x4 matrices agreeing (within epsilon) on the upper-left 3x3 block compare
equal — in particular every translation matrix equals the identity; an M3x3
comparison sees only the upper-left 2x2 block, and an M2x2 comparison only
the `[0][0]` entry. -/
theorem C6_partial_eq_upper_blocks :
    (∀ a b : M4x4,
        (∀ y x : Fin 4, (y : ℕ) < 3 → (x : ℕ) < 3 → equal_f64 (a y x) (b y x)) →
        m4x4_eq a b) ∧
    (∀ tx ty tz : ℝ, m4x4_eq (translation tx ty tz) IDENTITY_MATRIX_4X4) ∧
    (∀ a b : M3x3,
        (∀ y x : Fin 3, (y : ℕ) < 2 → (x : ℕ) < 2 → equal_f64 (a y x) (b y x)) →
        m3x3_eq a b) ∧
    (∀ a b : M2x2, equal_f64 (a 0 0) (b 0 0) → m2x2_eq a b) := by
  refine ⟨fun a b h => h, ?_, fun a b h => h, ?_⟩
  · intro tx ty tz y x hy hx
    have hx3 : ¬(x = 3) := by
      intro hc
      rw [hc, v4_3] at hx
      norm_num at hx
    have he : translation tx ty tz y x = IDENTITY_MATRIX_4X4 y x := by
      unfold translation
      rw [if_neg (fun hc => hx3 hc.2), if_neg (fun hc => hx3 hc.2),
        if_neg (fun hc => hx3 hc.2)]
    rw [he]
    exact equal_f64_refl _
  · intro a b h y x hy hx
    have hy0 : y = 0 := by
      apply Fin.ext
      simp only [Fin.val_zero]
      omega
    have hx0 : x = 0 := by
      apply Fin.ext
      simp only [Fin.val_zero]
      omega
    rw [hy0, hx0]
    exact h

/-- Witness for C6: a concrete translation compares equal to the identity, and
two concrete all-one 2x2 matrices compare equal. -/
theorem C6_partial_eq_upper_blocks_witness :
    m4x4_eq (translation 5 (-3) 2) IDENTITY_MATRIX_4X4 ∧
      m2x2_eq (fun _ _ => (1 : ℝ)) (fun _ _ => (1 : ℝ)) :=
  ⟨C6_partial_eq_upper_blocks.2.1 5 (-3) 2,
    C6_partial_eq_upper_blocks.2.2.2 _ _ (equal_f64_refl 1)⟩

/-- C9: multiplying a translation matrix by a vector (`w = 0`) returns the
vector unchanged; multiplying it by a point (`w = 1`) shifts the point's
`x`, `y`, `z` by exactly the translation amounts. -/
theorem C9_translation_moves_points_fixes_vectors :
    ∀ (tx ty tz : ℝ) (t : Tuple),
      (t.w = 0 → mul_tuple (translation tx ty tz) t = t) ∧
      (t.w = 1 → mul_tuple (translation tx ty tz) t = ⟨t.x + tx, t.y + ty, t.z + tz, 1⟩) := by
  intro tx ty tz t
  obtain ⟨x, y, z, w⟩ := t
  constructor <;> intro hw <;>
    · replace hw : w = _ := hw
      subst hw
      simp only [mul_tuple, cal_index_tuple_multi, translation, IDENTITY_MATRIX_4X4]
      norm_num [Fin.ext_iff, v4_0, v4_1, v4_2, v4_3, Tuple.mk.injEq]

/-- Witness for C9 at the translation `(5, -3, 2)`, the vector `(-3, 4, 5)`
and the point `(-3, 4, 5)`. -/
theorem C9_translation_moves_points_fixes_vectors_witness :
    mul_tuple (translation 5 (-3) 2) ⟨-3, 4, 5, 0⟩ = ⟨-3, 4, 5, 0⟩ ∧
      mul_tuple (translation 5 (-3) 2) ⟨-3, 4, 5, 1⟩ = ⟨2, 1, 7, 1⟩ := by
  constructor
  · exact (C9_translation_moves_points_fixes_vectors 5 (-3) 2 ⟨-3, 4, 5, 0⟩).1 rfl
  · have h := (C9_translation_moves_points_fixes_vectors 5 (-3) 2 ⟨-3, 4, 5, 1⟩).2 rfl
    rw [h]
    norm_num

theorem hit_min_none (i : Intersection) : hit_min none i = some i := rfl

theorem hit_min_some (j i : Intersection) :
    hit_min (some j) i = if i.t < j.t then some i else some j := rfl

/-- The fold underlying `hit`, started from `some j`, returns an element of
`j :: l` whose `t` is minimal among `j` and the members of `l`. -/
theorem foldl_hit_min_some (l : List Intersection) (j : Intersection) :
    ∃ i, l.foldl hit_min (some j) = some i ∧ (i = j ∨ i ∈ l) ∧ i.t ≤ j.t ∧
      ∀ k ∈ l, i.t ≤ k.t := by
  induction l generalizing j with
  | nil => exact ⟨j, rfl, Or.inl rfl, le_refl _, by simp⟩
  | cons a l ih =>
    rw [List.foldl_cons]
    by_cases hc : a.t < j.t
    · rw [show hit_min (some j) a = some a from by rw [hit_min_some, if_pos hc]]
      obtain ⟨i, hfold, hmem, hle, hall⟩ := ih a
      refine ⟨i, hfold, Or.inr ?_, le_trans hle (le_of_lt hc), ?_⟩
      · cases hmem with
        | inl h => rw [h]; exact List.mem_cons_self a l
        | inr h => exact List.mem_cons_of_mem a h
      · intro k hk
        cases List.mem_cons.mp hk with
        | inl h => rw [h]; exact hle
        | inr h => exact hall k h
    · rw [show hit_min (some j) a = some j from by rw [hit_min_some, if_neg hc]]
      obtain ⟨i, hfold, hmem, hle, hall⟩ := ih j
      refine ⟨i, hfold, ?_, hle, ?_⟩
      · cases hmem with
        | inl h => exact Or.inl h
        | inr h => exact Or.inr (List.mem_cons_of_mem a h)
      · intro k hk
        cases List.mem_cons.mp hk with
        | inl h => rw [h]; exact le_trans hle (not_lt.mp hc)
        | inr h => exact hall k h

/-- C3: `hit` returns `none` exactly when every intersection has negative `t`;
when it returns `some i`, the result is a member with `t >= 0` whose `t` is
minimal among all members with `t >= 0` — negative-`t` intersections are never
returned. -/
theorem C3_hit_returns_min_nonneg :
    ∀ xs : List Intersection,
      (hit xs = none ↔ ∀ i ∈ xs, i.t < 0) ∧
      (∀ i, hit xs = some i →
        i ∈ xs ∧ 0 ≤ i.t ∧ ∀ j ∈ xs, 0 ≤ j.t → i.t ≤ j.t) := by
  intro xs
  have hdef : hit xs = (xs.filter fun i => decide (0 ≤ i.t)).foldl hit_min none := rfl
  cases hf : xs.filter fun i => decide (0 ≤ i.t) with
  | nil =>
    rw [hdef, hf]
    constructor
    · simp only [List.foldl_nil]
      refine ⟨fun _ i hi => ?_, fun _ => trivial⟩
      by_contra hneg
      push_neg at hneg
      have hmem : i ∈ xs.filter fun i => decide (0 ≤ i.t) :=
        List.mem_filter.mpr ⟨hi, by simpa using hneg⟩
      rw [hf] at hmem
      exact absurd hmem (List.not_mem_nil i)
    · intro i hi
      rw [List.foldl_nil] at hi
      exact Option.noConfusion hi
  | cons a l =>
    have ha : a ∈ xs.filter fun i => decide (0 ≤ i.t) := by
      rw [hf]
      exact List.mem_cons_self a l
    have haf := List.mem_filter.mp ha
    have ha0 : 0 ≤ a.t := by simpa using haf.2
    rw [hdef, hf, List.foldl_cons, show hit_min none a = some a from rfl]
    obtain ⟨i', hfold, hmem, hle, hall⟩ := foldl_hit_min_some l a
    rw [hfold]
    constructor
    · constructor
      · intro hc
        exact Option.noConfusion hc
      · intro hneg
        exact absurd (hneg a haf.1) (not_lt.mpr ha0)
    · intro i hi
      obtain rfl := Option.some.inj hi
      have hmemf : i' ∈ xs.filter fun i => decide (0 ≤ i.t) := by
        rw [hf]
        cases hmem with
        | inl h => rw [h]; exact List.mem_cons_self a l
        | inr h => exact List.mem_cons_of_mem a h
      have hif := List.mem_filter.mp hmemf
      refine ⟨hif.1, by simpa using hif.2, ?_⟩
      intro j hj hj0
      have hjf : j ∈ xs.filter fun i => decide (0 ≤ i.t) :=
        List.mem_filter.mpr ⟨hj, by simpa using hj0⟩
      rw [hf] at hjf
      cases List.mem_cons.mp hjf with
      | inl h => rw [h]; exact hle
      | inr h => exact hall j h

/-- Witness for C3: with only negative `t` values `hit` returns nothing; on
`[t = 2, t = 1]` it returns the `t = 1` intersection, which is nonnegative. -/
theorem C3_hit_returns_min_nonneg_witness :
    hit [Intersection.new (-2) ⟨0, IDENTITY_MATRIX_4X4, Material.new⟩,
        Intersection.new (-1) ⟨0, IDENTITY_MATRIX_4X4, Material.new⟩] = none ∧
    hit [Intersection.new 2 ⟨0, IDENTITY_MATRIX_4X4, Material.new⟩,
        Intersection.new 1 ⟨0, IDENTITY_MATRIX_4X4, Material.new⟩] =
      some (Intersection.new 1 ⟨0, IDENTITY_MATRIX_4X4, Material.new⟩) ∧
    (0 : ℝ) ≤ (Intersection.new 1 ⟨0, IDENTITY_MATRIX_4X4, Material.new⟩).t := by
  have h1 : hit [Intersection.new (-2) ⟨0, IDENTITY_MATRIX_4X4, Material.new⟩,
      Intersection.new (-1) ⟨0, IDENTITY_MATRIX_4X4, Material.new⟩] = none := by
    apply (C3_hit_returns_min_nonneg _).1.mpr
    intro i hi
    simp only [List.mem_cons, List.not_mem_nil, or_false] at hi
    rcases hi with rfl | rfl <;> norm_num [Intersection.new]
  have h2 : hit [Intersection.new 2 ⟨0, IDENTITY_MATRIX_4X4, Material.new⟩,
      Intersection.new 1 ⟨0, IDENTITY_MATRIX_4X4, Material.new⟩] =
      some (Intersection.new 1 ⟨0, IDENTITY_MATRIX_4X4, Material.new⟩) := by
    have hdef : hit [Intersection.new 2 ⟨0, IDENTITY_MATRIX_4X4, Material.new⟩,
        Intersection.new 1 ⟨0, IDENTITY_MATRIX_4X4, Material.new⟩] =
        ([Intersection.new 2 ⟨0, IDENTITY_MATRIX_4X4, Material.new⟩,
          Intersection.new 1 ⟨0, IDENTITY_MATRIX_4X4, Material.new⟩].filter
            fun i => decide (0 ≤ i.t)).foldl hit_min none := rfl
    rw [hdef, List.filter_cons_of_pos, List.filter_cons_of_pos, List.filter_nil]
    · rw [List.foldl_cons, hit_min_none, List.foldl_cons, hit_min_some, List.foldl_nil,
        if_pos (by norm_num [Intersection.new])]
    · exact decide_eq_true (by norm_num [Intersection.new])
    · exact decide_eq_true (by norm_num [Intersection.new])
  exact ⟨h1, h2, ((C3_hit_returns_min_nonneg _).2 _ h2).2.1⟩

/-- C1: for every ray and every sphere whose transform is invertible,
`intersect` is governed by the discriminant of the object-space quadratic
(computed on the ray transformed by the inverse of the sphere's transform):
negative — no intersections; zero — the tangent value `-b/(2a)` twice;
positive — the two quadratic roots in nondecreasing order. -/
theorem C1_intersect_discriminant_cases :
    ∀ (r : Ray) (s : Sphere), determinant_4x4 s.transform ≠ 0 →
      ∃ inv, invert_4x4 s.transform = Except.ok inv ∧
        (let r' := transform r inv
         let d := r'.discriminant
         let a := r'.direction.dotv r'.direction
         let b := 2 * r'.direction.dotv (r'.origin - SPHERE_ORIGIN)
         (d < 0 → intersect r s = some []) ∧
         (d = 0 → intersect r s =
            some [Intersection.new (-b / (2 * a)) s, Intersection.new (-b / (2 * a)) s]) ∧
         (0 < d → intersect r s =
            some [Intersection.new ((-b - Real.sqrt d) / (2 * a)) s,
                  Intersection.new ((-b + Real.sqrt d) / (2 * a)) s] ∧
            (-b - Real.sqrt d) / (2 * a) ≤ (-b + Real.sqrt d) / (2 * a))) := by
  intro r s h
  have hinv := invert_ok s.transform h
  refine ⟨adjugate_over_det s.transform, hinv, ?_, ?_, ?_⟩ <;> intro hd
  · simp only [intersect, hinv]
    rw [if_pos hd]
  · simp only [intersect, hinv]
    rw [if_neg (by rw [hd]; exact lt_irrefl 0), if_pos hd]
  · have ha : 0 ≤ (transform r (adjugate_over_det s.transform)).direction.dotv
        (transform r (adjugate_over_det s.transform)).direction := by
      unfold Tuple.dotv
      have h1 := mul_self_nonneg (transform r (adjugate_over_det s.transform)).direction.x
      have h2 := mul_self_nonneg (transform r (adjugate_over_det s.transform)).direction.y
      have h3 := mul_self_nonneg (transform r (adjugate_over_det s.transform)).direction.z
      have h4 := mul_self_nonneg (transform r (adjugate_over_det s.transform)).direction.w
      linarith
    constructor
    · simp only [intersect, hinv]
      rw [if_neg (not_lt.mpr (le_of_lt hd)), if_neg (ne_of_gt hd)]
    · rcases ha.eq_or_lt with h0 | h0
      · rw [show (2 : ℝ) * ((transform r (adjugate_over_det s.transform)).direction.dotv
            (transform r (adjugate_over_det s.transform)).direction) = 0 by
          rw [← h0]; ring]
        rw [div_zero, div_zero]
      · have hs := Real.sqrt_nonneg (transform r (adjugate_over_det s.transform)).discriminant
        gcongr
        linarith

theorem tuple_sub_def (a b : Tuple) :
    a - b = ⟨a.x - b.x, a.y - b.y, a.z - b.z, a.w - b.w⟩ := rfl

theorem tuple_add_def (a b : Tuple) :
    a + b = ⟨a.x + b.x, a.y + b.y, a.z + b.z, a.w + b.w⟩ := rfl

theorem tuple_neg_def (a : Tuple) : -a = ⟨-a.x, -a.y, -a.z, -a.w⟩ := rfl

theorem sqrt_four : Real.sqrt 4 = 2 := by
  rw [show (4 : ℝ) = 2 ^ 2 by norm_num]
  exact Real.sqrt_sq (by norm_num)

/-- Witness for C1: the default unit sphere and the ray from `(0,0,-5)` along
`(0,0,1)` — the discriminant is positive and the hits are `t = 4` and `t = 6`,
in order. -/
theorem C1_intersect_discriminant_cases_witness :
    determinant_4x4 IDENTITY_MATRIX_4X4 ≠ 0 ∧
    intersect (Ray.new ⟨0, 0, -5, 1⟩ ⟨0, 0, 1, 0⟩) ⟨0, IDENTITY_MATRIX_4X4, Material.new⟩ =
      some [Intersection.new 4 ⟨0, IDENTITY_MATRIX_4X4, Material.new⟩,
            Intersection.new 6 ⟨0, IDENTITY_MATRIX_4X4, Material.new⟩] := by
  have h : determinant_4x4 IDENTITY_MATRIX_4X4 ≠ 0 := by rw [det_identity]; norm_num
  obtain ⟨inv, hinv, hcases⟩ := C1_intersect_discriminant_cases
    (Ray.new ⟨0, 0, -5, 1⟩ ⟨0, 0, 1, 0⟩) ⟨0, IDENTITY_MATRIX_4X4, Material.new⟩ h
  have hinv' : inv = IDENTITY_MATRIX_4X4 := Except.ok.inj (hinv.symm.trans invert_identity)
  subst hinv'
  have hr' : transform (Ray.new ⟨0, 0, -5, 1⟩ ⟨0, 0, 1, 0⟩) IDENTITY_MATRIX_4X4 =
      Ray.new ⟨0, 0, -5, 1⟩ ⟨0, 0, 1, 0⟩ := by
    unfold transform
    rw [mul_tuple_identity, mul_tuple_identity]
    rfl
  rw [hr'] at hcases
  have hdisc : (Ray.new ⟨0, 0, -5, 1⟩ ⟨0, 0, 1, 0⟩).discriminant = 4 := by
    simp only [Ray.discriminant, Ray.new, SPHERE_ORIGIN, Tuple.dotv, tuple_sub_def]
    norm_num
  have hd0 : 0 < (Ray.new ⟨0, 0, -5, 1⟩ ⟨0, 0, 1, 0⟩).discriminant := by
    rw [hdisc]
    norm_num
  obtain ⟨heq, _⟩ := hcases.2.2 hd0
  have hA : (Ray.new ⟨0, 0, -5, 1⟩ ⟨0, 0, 1, 0⟩).direction.dotv
      (Ray.new ⟨0, 0, -5, 1⟩ ⟨0, 0, 1, 0⟩).direction = 1 := by
    simp only [Ray.new, Tuple.dotv]
    norm_num
  have hB : (Ray.new ⟨0, 0, -5, 1⟩ ⟨0, 0, 1, 0⟩).direction.dotv
      ((Ray.new ⟨0, 0, -5, 1⟩ ⟨0, 0, 1, 0⟩).origin - SPHERE_ORIGIN) = -5 := by
    simp only [Ray.new, SPHERE_ORIGIN, Tuple.dotv, tuple_sub_def]
    norm_num
  rw [hdisc, hA, hB, sqrt_four] at heq
  refine ⟨h, ?_⟩
  rw [heq]
  norm_num [Intersection.new]

theorem color_add_def (a b : Color) :
    a + b = ⟨a.red + b.red, a.green + b.green, a.blue + b.blue⟩ := rfl

theorem color_mul_def (a b : Color) :
    a * b = ⟨a.red * b.red, a.green * b.green, a.blue * b.blue⟩ := rfl

/-- C8: when the normalized light direction dotted with the normal is
negative, `lighting` returns exactly the ambient term (diffuse and specular
are black); for the default material and a unit-white light this is the color
`(0.1, 0.1, 0.1)`. -/
theorem C8_lighting_facing_away :
    ∀ (material : Material) (light : PointLight) (point eyev normalv : Tuple),
      ((light.position - point).normalizev).dotv normalv < 0 →
      lighting material light point eyev normalv =
        (material.color * light.intensity).scale material.ambient ∧
      (material = Material.new → light.intensity = Color.new 1 1 1 →
        lighting material light point eyev normalv = Color.new 0.1 0.1 0.1) := by
  intro material light point eyev normalv h
  have hl : lighting material light point eyev normalv =
      (material.color * light.intensity).scale material.ambient := by
    unfold lighting
    rw [if_pos h]
    simp only [color_add_def, Color.new, Color.scale, color_mul_def]
    norm_num
  refine ⟨hl, fun hm hi => ?_⟩
  rw [hl, hm, hi]
  simp only [Material.new, color_mul_def, Color.scale, Color.new]
  norm_num

/-- Witness for C8: default material, unit-white light at `(0, 0, 10)` behind
the surface at the origin with normal `(0, 0, -1)`. -/
theorem C8_lighting_facing_away_witness :
    ((((⟨0, 0, 10, 1⟩ : Tuple) - ⟨0, 0, 0, 1⟩).normalizev).dotv ⟨0, 0, -1, 0⟩ < 0) ∧
    lighting Material.new (PointLight.new ⟨0, 0, 10, 1⟩ (Color.new 1 1 1)) ⟨0, 0, 0, 1⟩
      ⟨0, 0, -1, 0⟩ ⟨0, 0, -1, 0⟩ = Color.new 0.1 0.1 0.1 := by
  have hmag : Real.sqrt 100 = 10 := by
    rw [show (100 : ℝ) = 10 ^ 2 by norm_num]
    exact Real.sqrt_sq (by norm_num)
  have hsub : ((⟨0, 0, 10, 1⟩ : Tuple) - ⟨0, 0, 0, 1⟩) = ⟨0, 0, 10, 0⟩ := by
    rw [tuple_sub_def]
    norm_num
  have hnorm : (⟨0, 0, 10, 0⟩ : Tuple).normalizev = ⟨0, 0, 1, 0⟩ := by
    unfold Tuple.normalizev
    norm_num [hmag]
  have hld : (((⟨0, 0, 10, 1⟩ : Tuple) - ⟨0, 0, 0, 1⟩).normalizev).dotv ⟨0, 0, -1, 0⟩ < 0 := by
    rw [hsub, hnorm]
    norm_num [Tuple.dotv]
  refine ⟨hld, ?_⟩
  exact (C8_lighting_facing_away Material.new
    (PointLight.new ⟨0, 0, 10, 1⟩ (Color.new 1 1 1)) ⟨0, 0, 0, 1⟩
    ⟨0, 0, -1, 0⟩ ⟨0, 0, -1, 0⟩ hld).2 rfl rfl

theorem det_swap_xw : determinant_4x4 swap_xw = -1 := by
  simp only [determinant_4x4, cofactor_4x4, minor_4x4, submatrix_4x4, determinant_3x3,
    cofactor_3x3, minor_3x3, submatrix_3x3, determinant_2x2, Fin.sum_univ_four,
    Fin.sum_univ_three, swap_xw, sa4_00, sa4_01, sa4_02, sa4_10, sa4_11,
    sa4_12, sa4_20, sa4_21, sa4_22, sa4_30, sa4_31, sa4_32, sa3_00, sa3_01, sa3_10,
    sa3_11, sa3_20, sa3_21, v4_0, v4_1, v4_2, v4_3, v3_0, v3_1, v3_2]
  norm_num [Fin.ext_iff, v4_0, v4_1, v4_2, v4_3]

theorem adjugate_swap_xw : adjugate_over_det swap_xw = swap_xw := by
  funext x y
  fin_cases x <;> fin_cases y <;>
    · simp only [adjugate_over_det, det_swap_xw, determinant_4x4, cofactor_4x4, minor_4x4,
        submatrix_4x4, determinant_3x3, cofactor_3x3, minor_3x3, submatrix_3x3,
        determinant_2x2, Fin.sum_univ_four, Fin.sum_univ_three, swap_xw,
        fmk4_0, fmk4_1, fmk4_2, fmk4_3, sa4_00, sa4_01, sa4_02,
        sa4_10, sa4_11, sa4_12, sa4_20, sa4_21, sa4_22, sa4_30, sa4_31, sa4_32, sa3_00,
        sa3_01, sa3_10, sa3_11, sa3_20, sa3_21, v4_0, v4_1, v4_2, v4_3, v3_0, v3_1, v3_2]
      norm_num [Fin.ext_iff, v4_0, v4_1, v4_2, v4_3]

theorem invert_swap_xw : invert_4x4 swap_xw = Except.ok swap_xw := by
  rw [invert_ok swap_xw (by rw [det_swap_xw]; norm_num), adjugate_swap_xw]

theorem transpose_swap_xw : transpose swap_xw = swap_xw := by
  funext y x
  fin_cases y <;> fin_cases x <;>
    · simp only [transpose, swap_xw, fmk4_0, fmk4_1, fmk4_2, fmk4_3]
      try norm_num [Fin.ext_iff, v4_0, v4_1, v4_2, v4_3]

theorem mul_swap_xw_point : mul_tuple swap_xw ⟨1, 0, 0, 1⟩ = ⟨1, 0, 0, 1⟩ := by
  simp only [mul_tuple, cal_index_tuple_multi, swap_xw]
  norm_num [Fin.ext_iff, v4_0, v4_1, v4_2, v4_3]

theorem mul_swap_xw_xvec : mul_tuple swap_xw ⟨1, 0, 0, 0⟩ = ⟨0, 0, 0, 1⟩ := by
  simp only [mul_tuple, cal_index_tuple_multi, swap_xw]
  norm_num [Fin.ext_iff, v4_0, v4_1, v4_2, v4_3]

theorem normalizev_zero : (new_vector 0 0 0).normalizev = ⟨0, 0, 0, 0⟩ := by
  unfold Tuple.normalizev new_vector
  norm_num

theorem object_normal_of_ok (s : Sphere) (inv : M4x4) (wp : Tuple)
    (h : invert_4x4 s.transform = Except.ok inv) :
    object_normal_of s wp = some (mul_tuple inv wp - new_point 0 0 0) := by
  unfold object_normal_of
  rw [h]

theorem world_normal_raw_ok (s : Sphere) (inv : M4x4) (wp : Tuple)
    (h : invert_4x4 s.transform = Except.ok inv) :
    world_normal_raw s wp =
      some (mul_tuple (transpose inv) (mul_tuple inv wp - new_point 0 0 0)) := by
  unfold world_normal_raw
  rw [h]

theorem normal_at_ok (s : Sphere) (inv : M4x4) (wp : Tuple)
    (h : invert_4x4 s.transform = Except.ok inv) :
    normal_at s wp = some
      ⟨((new_vector (mul_tuple (transpose inv) (mul_tuple inv wp - new_point 0 0 0)).x
          (mul_tuple (transpose inv) (mul_tuple inv wp - new_point 0 0 0)).y
          (mul_tuple (transpose inv) (mul_tuple inv wp - new_point 0 0 0)).z).normalizev).x,
       ((new_vector (mul_tuple (transpose inv) (mul_tuple inv wp - new_point 0 0 0)).x
          (mul_tuple (transpose inv) (mul_tuple inv wp - new_point 0 0 0)).y
          (mul_tuple (transpose inv) (mul_tuple inv wp - new_point 0 0 0)).z).normalizev).y,
       ((new_vector (mul_tuple (transpose inv) (mul_tuple inv wp - new_point 0 0 0)).x
          (mul_tuple (transpose inv) (mul_tuple inv wp - new_point 0 0 0)).y
          (mul_tuple (transpose inv) (mul_tuple inv wp - new_point 0 0 0)).z).normalizev).z,
       0⟩ := by
  unfold normal_at
  rw [h]

/-- C7 counterexample: with the sphere carrying the invertible x/w-swap
transform and the world point `(1, 0, 0)`, the object-space normal is the
nonzero tuple `(1, 0, 0, 0)`, yet `normal_at` returns the all-zero tuple
(in `f64` the division `0.0/0.0` would be NaN): its x,y,z part does not have
unit length, so a nonzero object-space normal does not make the stated
conclusion hold. -/
theorem C7_normal_at_counterexample :
    determinant_4x4 swap_xw ≠ 0 ∧
    object_normal_of ⟨0, swap_xw, Material.new⟩ ⟨1, 0, 0, 1⟩ = some ⟨1, 0, 0, 0⟩ ∧
    (⟨1, 0, 0, 0⟩ : Tuple) ≠ ⟨0, 0, 0, 0⟩ ∧
    normal_at ⟨0, swap_xw, Material.new⟩ ⟨1, 0, 0, 1⟩ = some ⟨0, 0, 0, 0⟩ ∧
    Real.sqrt ((0 : ℝ) ^ 2 + 0 ^ 2 + 0 ^ 2) ≠ 1 := by
  have hsub : (⟨1, 0, 0, 1⟩ : Tuple) - new_point 0 0 0 = ⟨1, 0, 0, 0⟩ := by
    unfold new_point
    rw [tuple_sub_def]
    norm_num
  have hW : mul_tuple (transpose swap_xw)
      (mul_tuple swap_xw ⟨1, 0, 0, 1⟩ - new_point 0 0 0) = ⟨0, 0, 0, 1⟩ := by
    rw [mul_swap_xw_point, hsub, transpose_swap_xw, mul_swap_xw_xvec]
  refine ⟨by rw [det_swap_xw]; norm_num, ?_, ?_, ?_,
    by rw [show (0 : ℝ) ^ 2 + 0 ^ 2 + 0 ^ 2 = 0 by norm_num, Real.sqrt_zero]; norm_num⟩
  · rw [object_normal_of_ok ⟨0, swap_xw, Material.new⟩ swap_xw ⟨1, 0, 0, 1⟩ invert_swap_xw,
      mul_swap_xw_point, hsub]
  · intro hc
    have hx := congrArg Tuple.x hc
    norm_num at hx
  · rw [normal_at_ok ⟨0, swap_xw, Material.new⟩ swap_xw ⟨1, 0, 0, 1⟩ invert_swap_xw, hW]
    rw [show new_vector ((⟨0, 0, 0, 1⟩ : Tuple)).x ((⟨0, 0, 0, 1⟩ : Tuple)).y
        ((⟨0, 0, 0, 1⟩ : Tuple)).z = new_vector 0 0 0 from rfl, normalizev_zero]

/-- C7 (amended): for every sphere whose transform inverts successfully and
every world point whose raw world-space normal has a nonzero `(x, y, z)` part,
`normal_at` returns a tuple whose `w` is exactly `0.0` and whose `x`, `y`,
`z` components have unit length. -/
theorem C7_normal_at_unit_and_w_zero :
    ∀ (s : Sphere) (world_point wn : Tuple),
      world_normal_raw s world_point = some wn →
      ¬(wn.x = 0 ∧ wn.y = 0 ∧ wn.z = 0) →
      ∃ n, normal_at s world_point = some n ∧ n.w = 0 ∧
        Real.sqrt (n.x ^ 2 + n.y ^ 2 + n.z ^ 2) = 1 := by
  intro s wp wn hwn hnz
  unfold world_normal_raw at hwn
  cases hinv : invert_4x4 s.transform with
  | error e =>
    rw [hinv] at hwn
    exact Option.noConfusion hwn
  | ok inv =>
    rw [hinv] at hwn
    have hwn' := Option.some.inj hwn
    set S := wn.x ^ 2 + wn.y ^ 2 + wn.z ^ 2 with hS
    have hS0 : 0 ≤ S := by positivity
    have hSpos : 0 < S := by
      rcases hS0.eq_or_lt with h0 | h0
      · exfalso
        have hx2 : wn.x ^ 2 = 0 := by nlinarith [sq_nonneg wn.x, sq_nonneg wn.y, sq_nonneg wn.z]
        have hy2 : wn.y ^ 2 = 0 := by nlinarith [sq_nonneg wn.x, sq_nonneg wn.y, sq_nonneg wn.z]
        have hz2 : wn.z ^ 2 = 0 := by nlinarith [sq_nonneg wn.x, sq_nonneg wn.y, sq_nonneg wn.z]
        exact hnz ⟨pow_eq_zero_iff (by norm_num) |>.mp hx2,
          pow_eq_zero_iff (by norm_num) |>.mp hy2,
          pow_eq_zero_iff (by norm_num) |>.mp hz2⟩
      · exact h0
    have hsq : Real.sqrt S ^ 2 = S := Real.sq_sqrt hS0
    have hsqrt_ne : Real.sqrt S ≠ 0 := ne_of_gt (Real.sqrt_pos.mpr hSpos)
    have hv : (new_vector wn.x wn.y wn.z).normalizev =
        ⟨wn.x / Real.sqrt S, wn.y / Real.sqrt S, wn.z / Real.sqrt S, 0 / Real.sqrt S⟩ := by
      unfold Tuple.normalizev new_vector
      rw [show wn.x ^ 2 + wn.y ^ 2 + wn.z ^ 2 + (0 : ℝ) ^ 2 = S by rw [hS]; ring]
    have hgoal : normal_at s wp = some
        ⟨wn.x / Real.sqrt S, wn.y / Real.sqrt S, wn.z / Real.sqrt S, 0⟩ := by
      rw [normal_at_ok s inv wp hinv, hwn', hv]
    refine ⟨_, hgoal, rfl, ?_⟩
    have h1 : (wn.x / Real.sqrt S) ^ 2 + (wn.y / Real.sqrt S) ^ 2 +
        (wn.z / Real.sqrt S) ^ 2 = 1 := by
      rw [div_pow, div_pow, div_pow, hsq, div_add_div_same, div_add_div_same, ← hS]
      exact div_self (ne_of_gt hSpos)
    rw [show ((⟨wn.x / Real.sqrt S, wn.y / Real.sqrt S, wn.z / Real.sqrt S, 0⟩ :
        Tuple)).x ^ 2 + (⟨wn.x / Real.sqrt S, wn.y / Real.sqrt S, wn.z / Real.sqrt S,
        0⟩ : Tuple).y ^ 2 + (⟨wn.x / Real.sqrt S, wn.y / Real.sqrt S,
        wn.z / Real.sqrt S, 0⟩ : Tuple).z ^ 2 = 1 from h1]
    exact Real.sqrt_one

/-- Witness for the amended C7: the default identity sphere at world point
`(1, 0, 0)` — the raw world normal is `(1, 0, 0, 0)` and `normal_at` returns
a unit vector with `w = 0`. -/
theorem C7_normal_at_unit_and_w_zero_witness :
    world_normal_raw ⟨0, IDENTITY_MATRIX_4X4, Material.new⟩ ⟨1, 0, 0, 1⟩ =
      some ⟨1, 0, 0, 0⟩ ∧
    ¬(((⟨1, 0, 0, 0⟩ : Tuple)).x = 0 ∧ ((⟨1, 0, 0, 0⟩ : Tuple)).y = 0 ∧
      ((⟨1, 0, 0, 0⟩ : Tuple)).z = 0) ∧
    ∃ n, normal_at ⟨0, IDENTITY_MATRIX_4X4, Material.new⟩ ⟨1, 0, 0, 1⟩ = some n ∧
      n.w = 0 ∧ Real.sqrt (n.x ^ 2 + n.y ^ 2 + n.z ^ 2) = 1 := by
  have hsub : (⟨1, 0, 0, 1⟩ : Tuple) - new_point 0 0 0 = ⟨1, 0, 0, 0⟩ := by
    unfold new_point
    rw [tuple_sub_def]
    norm_num
  have hraw : world_normal_raw ⟨0, IDENTITY_MATRIX_4X4, Material.new⟩ ⟨1, 0, 0, 1⟩ =
      some ⟨1, 0, 0, 0⟩ := by
    rw [world_normal_raw_ok ⟨0, IDENTITY_MATRIX_4X4, Material.new⟩ IDENTITY_MATRIX_4X4
      ⟨1, 0, 0, 1⟩ invert_identity, mul_tuple_identity, hsub, transpose_identity,
      mul_tuple_identity]
  have hnz : ¬(((⟨1, 0, 0, 0⟩ : Tuple)).x = 0 ∧ ((⟨1, 0, 0, 0⟩ : Tuple)).y = 0 ∧
      ((⟨1, 0, 0, 0⟩ : Tuple)).z = 0) := by
    intro hc
    have := hc.1
    norm_num at this
  exact ⟨hraw, hnz, C7_normal_at_unit_and_w_zero _ _ _ hraw hnz⟩

/-- C10: equality of `Intersection<Sphere>` values compares only the sphere
(by id) and ignores the `t` parameter entirely. -/
theorem C10_intersection_eq_ignores_t :
    ∀ (s : Sphere) (t1 t2 : ℝ),
      intersection_eq (Intersection.new t1 s) (Intersection.new t2 s) :=
  fun _ _ _ => rfl

end RayTracer
